import Mathlib

/-!
# Verification of the reversible-action history manager

Shallow embedding of `src/source/ts/control/history.ts` (class `History`).

The mutable instance state (`_actions`, `_action_groups`, `_undone`,
`_autogroup`, `_action_lock`) together with the host timer environment
(`setTimeout` / `clearTimeout`) is modelled as an explicit state record
`HState`.  JavaScript arrays used as stacks (`push` at the end, `pop` from
the end) are modelled as Lean lists with `jsPush` / `jsPop`.  The command
registry (`this._map`) is modelled as a function from a name and a
parameter list to `Option String`: `none` means `invoke` succeeded, and
`some e` means `invoke` threw the error `e`.  `undo` / `redo` return the
final state, the chronological list of `Map.invoke` calls made, and the
error that escaped the call, if any (`none` corresponds to the JavaScript
method returning `true`).
-/

/-- A command descriptor: a registry name and its ordered parameter list
(the `{name, parameters}` halves of `IHistoricAction`). -/
structure Desc where
  name : String
  parameters : List Int
deriving DecidableEq, Repr

/-- One reversible action (`IHistoricAction` in history.ts). -/
structure HistoricAction where
  forward : Desc
  backward : Desc
deriving DecidableEq, Repr

/-- A registry invocation observed through `Map.invoke`: name and parameters. -/
abbrev Invocation := String × List Int

/-- The command registry (`this._map`): invoking a name with parameters
either succeeds (`none`) or throws an error (`some e`). -/
abbrev CmdMap := String → List Int → Option String

/-- JavaScript `array.push(x)`: append at the end. -/
def jsPush (l : List α) (x : α) : List α := l ++ [x]

/-- JavaScript `array.pop()`: remove and return the last element. -/
def jsPop (l : List α) : Option (α × List α) :=
  match l.getLast? with
  | none => none
  | some x => some (x, l.dropLast)

/-- State of a `History` instance plus the timer environment.
`scheduled` holds the handles of live `setTimeout` callbacks (each of
which runs `group_actions` when fired) and `next_timer` supplies fresh
handles. -/
structure HState where
  actions : List HistoricAction
  action_groups : List (List HistoricAction)
  undone : List (List HistoricAction)
  autogroup : Option Nat
  action_lock : Bool
  scheduled : List Nat
  next_timer : Nat
deriving DecidableEq, Repr

/-- The state built by the constructor (history.ts lines 42-53). -/
def History.init : HState :=
  { actions := [], action_groups := [], undone := [],
    autogroup := none, action_lock := false,
    scheduled := [], next_timer := 0 }

/-- `History.push_action` (history.ts lines 64-92).  If the action lock is
set, nothing happens.  Otherwise the new action is appended to `_actions`
and `_undone` is cleared; when a delay is supplied, the previously stored
timeout (if the stored handle is non-null) is cancelled and a fresh
timeout is armed. -/
def push_action (s : HState) (forward_name : String) (forward_params : List Int)
    (backward_name : String) (backward_params : List Int)
    (autogroup_delay : Option Nat) : HState :=
  if s.action_lock then s
  else
    let s1 := { s with
      actions := jsPush s.actions
        { forward := { name := forward_name, parameters := forward_params },
          backward := { name := backward_name, parameters := backward_params } },
      undone := ([] : List (List HistoricAction)) }
    match autogroup_delay with
    | none => s1
    | some _ =>
      let s2 :=
        match s1.autogroup with
        | some h => { s1 with scheduled := s1.scheduled.erase h }
        | none => s1
      { s2 with autogroup := some s2.next_timer,
                scheduled := jsPush s2.scheduled s2.next_timer,
                next_timer := s2.next_timer + 1 }

/-- `History.group_actions` (history.ts lines 97-104).  The stored timer
handle is nulled unconditionally (before the lock check, and without a
`clearTimeout`); then, if the lock is clear, the pending buffer is pushed
as one group and `_actions` and `_undone` are reset. -/
def group_actions (s : HState) : HState :=
  let s1 := { s with autogroup := (none : Option Nat) }
  if s1.action_lock then s1
  else { s1 with action_groups := jsPush s1.action_groups s1.actions,
                 actions := ([] : List HistoricAction),
                 undone := ([] : List (List HistoricAction)) }

/-- An armed `setTimeout` callback firing (history.ts lines 88-90): the
handle is consumed (fire-once) and the callback runs `group_actions`. -/
def fire_timer (s : HState) (h : Nat) : HState :=
  if h ∈ s.scheduled then group_actions { s with scheduled := s.scheduled.erase h }
  else s

/-- Replay a list of descriptors through the registry (the `forEach`
loops of `undo`/`redo`), recording each `invoke` call in order; the loop
stops at the first call that throws and returns that error. -/
def replayDescs (map : CmdMap) : List Desc → List Invocation × Option String
  | [] => ([], none)
  | d :: rest =>
    match map d.name d.parameters with
    | some e => ([(d.name, d.parameters)], some e)
    | none =>
      let r := replayDescs map rest
      ((d.name, d.parameters) :: r.1, r.2)

/-- The timer-commit step at the top of `undo` (history.ts lines 110-114):
if a handle is stored, `clearTimeout` it and run `group_actions`. -/
def undo_timer_step (s : HState) : HState :=
  match s.autogroup with
  | some h => group_actions { s with scheduled := s.scheduled.erase h }
  | none => s

/-- Unit selection in `undo` (history.ts lines 116-124): the pending
buffer if non-empty (it is left in place), else the popped top committed
group, reversed in place; `none` when there is nothing to undo. -/
def undo_select (s : HState) : Option (List HistoricAction × HState) :=
  if s.actions.length > 0 then some (s.actions, s)
  else
    match jsPop s.action_groups with
    | some (g, rest) => some (g.reverse, { s with action_groups := rest })
    | none => none

/-- `History.undo` (history.ts lines 109-141).  Returns the final state,
the `Map.invoke` calls made, and the escaped error if a replay call threw
(`none` = the method returned `true`).  When the lock was already set the
replay is skipped; the selected unit is pushed onto `_undone` after the
replay loop, so a thrown error skips that push. -/
def undo (map : CmdMap) (s : HState) : HState × List Invocation × Option String :=
  match undo_select (undo_timer_step s) with
  | none => (undo_timer_step s, [], none)
  | some (u, s2) =>
    if s2.action_lock then
      ({ s2 with undone := jsPush s2.undone u }, [], none)
    else
      match replayDescs map (u.map fun a => a.backward) with
      | (tr, some e) => ({ s2 with action_lock := false }, tr, some e)
      | (tr, none) =>
        ({ s2 with action_lock := false, undone := jsPush s2.undone u }, tr, none)

/-- `History.redo` (history.ts lines 146-166).  Returns the final state,
the `Map.invoke` calls made, and the escaped error if a replay call threw.
The popped unit is pushed back onto `_action_groups` after the replay
block, so a thrown error skips that push; when the lock was already set
the replay is skipped but the push still happens. -/
def redo (map : CmdMap) (s : HState) : HState × List Invocation × Option String :=
  match jsPop s.undone with
  | none => (s, [], none)
  | some (g, rest) =>
    if s.action_lock then
      ({ s with undone := rest, action_groups := jsPush s.action_groups g }, [], none)
    else
      match replayDescs map (g.map fun a => a.forward) with
      | (tr, some e) => ({ s with undone := rest, action_lock := false }, tr, some e)
      | (tr, none) =>
        ({ s with undone := rest, action_lock := false,
                  action_groups := jsPush s.action_groups g }, tr, none)

/-- A registry on which every invocation succeeds. -/
def mapOK : CmdMap := fun _ _ => none

/-- Action A of the spec scenario: forward `set_x [1]`, backward `set_x [0]`. -/
def actA : HistoricAction :=
  { forward := { name := "set_x", parameters := [1] },
    backward := { name := "set_x", parameters := [0] } }

/-- Action B of the spec scenario: forward `set_y [2]`, backward `set_y [0]`. -/
def actB : HistoricAction :=
  { forward := { name := "set_y", parameters := [2] },
    backward := { name := "set_y", parameters := [0] } }

/-- The state after push A, push B, `group_actions()` from a fresh instance. -/
def scenarioState : HState :=
  group_actions
    (push_action
      (push_action History.init "set_x" [1] "set_x" [0] none)
      "set_y" [2] "set_y" [0] none)

/-- A registry that throws `"fail"` on the name `"boom"` and succeeds
elsewhere. -/
def mapBoom : CmdMap := fun n _ => if n = "boom" then some "fail" else none

/-- The pair an invoke call records: the descriptor's name and parameters. -/
def descInv (d : Desc) : Invocation := (d.name, d.parameters)

/-- A single pushed action used in the C2 scenario. -/
def c2_act : HistoricAction :=
  { forward := { name := "a", parameters := [] },
    backward := { name := "a0", parameters := [] } }

/-- The action pushed after the undo in the C2 scenario. -/
def c2_new : HistoricAction :=
  { forward := { name := "b", parameters := [] },
    backward := { name := "b0", parameters := [] } }

/-- State with one pending action (fresh instance after one push). -/
def c2_state : HState := push_action History.init "a" [] "a0" [] none

/-- A locked state with an armed timer handle. -/
def c3_state : HState :=
  { History.init with action_lock := true, autogroup := some 0,
                      scheduled := [0], next_timer := 1 }

/-- State right after a push with an autogroup delay: handle 0 armed. -/
def c4_armed : HState := push_action History.init "a" [] "a0" [] (some 5)

/-- An action whose backward invocation throws. -/
def c7_act : HistoricAction :=
  { forward := { name := "a", parameters := [] },
    backward := { name := "boom", parameters := [] } }

/-- State whose pending buffer holds one action with a throwing backward. -/
def c7_state : HState := { History.init with actions := [c7_act] }

/-- Pending buffer of two actions where the second backward throws. -/
def c6_state : HState := { History.init with actions := [c2_act, c7_act] }

/-- State with one committed empty group (explicit group of nothing). -/
def c8_state : HState := group_actions History.init

/-- C1: in the concrete scenario (push A, push B, `group_actions()`),
`undo()` invokes `set_y [0]` then `set_x [0]` as the claim states, but
`redo()` then invokes `set_y [2]` then `set_x [1]` — NOT the claimed
`set_x [1]` then `set_y [2]`: `undo` reversed the popped group in place,
so the stored unit is `[B, A]` and `redo` replays forward descriptors in
reverse chronological order. -/
theorem C1_scenario_eval :
    (undo mapOK scenarioState).2.1 = [("set_y", [0]), ("set_x", [0])] ∧
    (redo mapOK (undo mapOK scenarioState).1).2.1
      = [("set_y", [2]), ("set_x", [1])] ∧
    (redo mapOK (undo mapOK scenarioState).1).2.1
      ≠ [("set_x", [1]), ("set_y", [2])] := by
  refine ⟨rfl, rfl, ?_⟩
  decide

/-! ## Helper lemmas -/

theorem jsPop_jsPush (l : List α) (x : α) : jsPop (jsPush l x) = some (x, l) := by
  simp [jsPop, jsPush, List.getLast?_concat, List.dropLast_concat]

theorem replayDescs_of_ok (map : CmdMap) (hmap : ∀ n p, map n p = none) :
    ∀ ds : List Desc, replayDescs map ds = (ds.map descInv, none) := by
  intro ds
  induction ds with
  | nil => rfl
  | cons d rest ih => simp [replayDescs, hmap, ih, descInv]

theorem replayDescs_err (map : CmdMap) :
    ∀ ds : List Desc, ∀ tr e, replayDescs map ds = (tr, some e) →
      ∃ pre d suf, ds = pre ++ d :: suf ∧
        (∀ x ∈ pre, map x.name x.parameters = none) ∧
        map d.name d.parameters = some e ∧
        tr = (pre ++ [d]).map descInv := by
  intro ds
  induction ds with
  | nil =>
    intro tr e h
    rw [replayDescs, Prod.mk.injEq] at h
    exact absurd h.2 (by simp)
  | cons d rest ih =>
    intro tr e h
    rcases hd : map d.name d.parameters with _ | e2
    · rw [replayDescs, hd, Prod.mk.injEq] at h
      obtain ⟨h1, h2⟩ := h
      obtain ⟨pre, d2, suf, hds, hpre, hfail, htr2⟩ :=
        ih (replayDescs map rest).1 e (by rw [← h2])
      refine ⟨d :: pre, d2, suf, by simp [hds], ?_, hfail, ?_⟩
      · intro x hx
        rcases List.mem_cons.mp hx with h3 | h3
        · rw [h3]; exact hd
        · exact hpre x h3
      · rw [← h1, htr2]; simp [descInv]
    · rw [replayDescs, hd, Prod.mk.injEq] at h
      obtain ⟨h1, h2⟩ := h
      rw [Option.some.injEq] at h2
      refine ⟨[], d, rest, rfl, by intro x hx; simp at hx, ?_, by simp [← h1, descInv]⟩
      rw [hd, h2]

theorem group_actions_lock (s : HState) :
    (group_actions s).action_lock = s.action_lock := by
  by_cases h : s.action_lock <;> simp [group_actions, h]

theorem undo_timer_step_lock (s : HState) :
    (undo_timer_step s).action_lock = s.action_lock := by
  rcases h : s.autogroup with _ | h0 <;>
    simp [undo_timer_step, h, group_actions_lock]

theorem undo_timer_none (s : HState) (h : s.autogroup = none) :
    undo_timer_step s = s := by
  simp [undo_timer_step, h]

theorem undo_select_lock (s : HState) (u : List HistoricAction) (s2 : HState)
    (h : undo_select s = some (u, s2)) : s2.action_lock = s.action_lock := by
  unfold undo_select at h
  by_cases ha : s.actions.length > 0
  · rw [if_pos ha, Option.some.injEq, Prod.mk.injEq] at h
    rw [← h.2]
  · rw [if_neg ha] at h
    rcases hp : jsPop s.action_groups with _ | ⟨g, rest⟩
    · rw [hp] at h; cases h
    · rw [hp, Option.some.injEq, Prod.mk.injEq] at h
      rw [← h.2]

theorem undo_select_pending (s : HState) (h : s.actions ≠ []) :
    undo_select s = some (s.actions, s) := by
  unfold undo_select
  rw [if_pos (List.length_pos.mpr h)]

theorem undo_select_group (s : HState) (h : s.actions = [])
    (g : List HistoricAction) (gs : List (List HistoricAction))
    (hg : s.action_groups = jsPush gs g) :
    undo_select s = some (g.reverse, { s with action_groups := gs }) := by
  unfold undo_select
  rw [if_neg (by simp [h]), hg, jsPop_jsPush]

theorem undo_eq_locked (map : CmdMap) (s : HState) (u : List HistoricAction)
    (s2 : HState) (hsel : undo_select (undo_timer_step s) = some (u, s2))
    (hlock : s2.action_lock = true) :
    undo map s = ({ s2 with undone := jsPush s2.undone u }, [], none) := by
  simp only [undo, hsel, hlock, if_true]

theorem undo_eq_err (map : CmdMap) (s : HState) (u : List HistoricAction)
    (s2 : HState) (hsel : undo_select (undo_timer_step s) = some (u, s2))
    (hlock : s2.action_lock = false) (tr : List Invocation) (e : String)
    (hr : replayDescs map (u.map fun a => a.backward) = (tr, some e)) :
    undo map s = ({ s2 with action_lock := false }, tr, some e) := by
  simp only [undo, hsel, hlock, Bool.false_eq_true, if_false, hr]

theorem undo_eq_ok (map : CmdMap) (s : HState) (u : List HistoricAction)
    (s2 : HState) (hsel : undo_select (undo_timer_step s) = some (u, s2))
    (hlock : s2.action_lock = false) (tr : List Invocation)
    (hr : replayDescs map (u.map fun a => a.backward) = (tr, none)) :
    undo map s =
      ({ s2 with action_lock := false, undone := jsPush s2.undone u }, tr, none) := by
  simp only [undo, hsel, hlock, Bool.false_eq_true, if_false, hr]

theorem undo_eq_nosel (map : CmdMap) (s : HState)
    (hsel : undo_select (undo_timer_step s) = none) :
    undo map s = (undo_timer_step s, [], none) := by
  simp only [undo, hsel]

theorem redo_eq_none (map : CmdMap) (s : HState) (h : jsPop s.undone = none) :
    redo map s = (s, [], none) := by
  simp only [redo, h]

theorem redo_eq_locked (map : CmdMap) (s : HState) (g : List HistoricAction)
    (rest : List (List HistoricAction)) (h : jsPop s.undone = some (g, rest))
    (hlock : s.action_lock = true) :
    redo map s =
      ({ s with undone := rest, action_groups := jsPush s.action_groups g },
        [], none) := by
  simp only [redo, h, hlock, if_true]

theorem redo_eq_err (map : CmdMap) (s : HState) (g : List HistoricAction)
    (rest : List (List HistoricAction)) (h : jsPop s.undone = some (g, rest))
    (hlock : s.action_lock = false) (tr : List Invocation) (e : String)
    (hr : replayDescs map (g.map fun a => a.forward) = (tr, some e)) :
    redo map s = ({ s with undone := rest, action_lock := false }, tr, some e) := by
  simp only [redo, h, hlock, Bool.false_eq_true, if_false, hr]

theorem redo_eq_ok (map : CmdMap) (s : HState) (g : List HistoricAction)
    (rest : List (List HistoricAction)) (h : jsPop s.undone = some (g, rest))
    (hlock : s.action_lock = false) (tr : List Invocation)
    (hr : replayDescs map (g.map fun a => a.forward) = (tr, none)) :
    redo map s =
      ({ s with undone := rest, action_lock := false,
                action_groups := jsPush s.action_groups g }, tr, none) := by
  simp only [redo, h, hlock, Bool.false_eq_true, if_false, hr]

/-! ## Claims C2-C5 -/

/-- C2 counterexample: `push_action` never clears the pending buffer.
After an undo that selected the pending buffer `[c2_act]`, pushing a new
action yields the buffer `[c2_act, c2_new]`, not exactly the one newly
pushed action `[c2_new]` as the claim states. -/
theorem C2_counterexample :
    c2_state.actions = [c2_act] ∧
    (push_action (undo mapOK c2_state).1 "b" [] "b0" [] none).actions
      = [c2_act, c2_new] ∧
    (push_action (undo mapOK c2_state).1 "b" [] "b0" [] none).actions
      ≠ [c2_new] := by
  decide

/-- C2 (amended): after an undo that selected the pending buffer (pending
buffer non-empty, no armed timer), a `push_action` with the lock clear
APPENDS the new action to the retained pending buffer — afterwards the
buffer holds the previously undone actions followed by the new action —
and the undone-groups (redo) stack is discarded. -/
theorem C2_push_after_undo (map : CmdMap) (s : HState) (fn : String)
    (fp : List Int) (bn : String) (bp : List Int)
    (h1 : s.actions ≠ []) (h2 : s.autogroup = none)
    (h3 : s.action_lock = false) :
    (push_action (undo map s).1 fn fp bn bp none).actions
      = jsPush s.actions { forward := { name := fn, parameters := fp },
                           backward := { name := bn, parameters := bp } } ∧
    (push_action (undo map s).1 fn fp bn bp none).undone = [] := by
  have hts : undo_timer_step s = s := undo_timer_none s h2
  have hsel : undo_select (undo_timer_step s) = some (s.actions, s) := by
    rw [hts]; exact undo_select_pending s h1
  rcases hr : replayDescs map (s.actions.map fun a => a.backward) with ⟨tr, _ | e⟩
  · rw [undo_eq_ok map s s.actions s hsel h3 tr hr]
    simp [push_action, h3, jsPush]
  · rw [undo_eq_err map s s.actions s hsel h3 tr e hr]
    simp [push_action, h3, jsPush]

/-- C2 witness: the amended statement at the concrete one-action state. -/
theorem C2_witness :
    c2_state.actions ≠ [] ∧ c2_state.autogroup = none ∧
    c2_state.action_lock = false ∧
    ((push_action (undo mapOK c2_state).1 "b" [] "b0" [] none).actions
        = jsPush c2_state.actions
            { forward := { name := "b", parameters := [] },
              backward := { name := "b0", parameters := [] } } ∧
     (push_action (undo mapOK c2_state).1 "b" [] "b0" [] none).undone = []) :=
  ⟨by decide, by decide, by decide,
   C2_push_after_undo mapOK c2_state "b" [] "b0" []
     (by decide) (by decide) (by decide)⟩

/-- C3 counterexample: with the lock set and a timer handle stored,
`group_actions` changes the state (it nulls the handle before the lock
check), so it is not a no-op on the entire state as the claim states. -/
theorem C3_counterexample : group_actions c3_state ≠ c3_state := by decide

/-- C3 (amended): with the lock set, `push_action` is a complete no-op,
and `group_actions` records no group and leaves the pending buffer,
committed groups and undone groups unchanged, but still nulls the stored
timer handle (without cancelling the scheduled callback). -/
theorem C3_locked_behavior (s : HState) (fn : String) (fp : List Int)
    (bn : String) (bp : List Int) (d : Option Nat)
    (h : s.action_lock = true) :
    push_action s fn fp bn bp d = s ∧
    group_actions s = { s with autogroup := none } := by
  constructor
  · simp [push_action, h]
  · simp [group_actions, h]

/-- C3 witness: the amended statement at the concrete locked state. -/
theorem C3_witness :
    c3_state.action_lock = true ∧
    (push_action c3_state "x" [] "y" [] none = c3_state ∧
     group_actions c3_state = { c3_state with autogroup := none }) :=
  ⟨rfl, C3_locked_behavior c3_state "x" [] "y" [] none rfl⟩

/-- C4 counterexample: after arming the auto-group timer (handle 0) and
then calling `group_actions`, the scheduled callback is still live and
firing it changes the state (commits another group), so the previously
armed callback can still fire, contrary to the claim. -/
theorem C4_counterexample :
    c4_armed.autogroup = some 0 ∧ c4_armed.scheduled = [0] ∧
    (group_actions c4_armed).scheduled = [0] ∧
    fire_timer (group_actions c4_armed) 0 ≠ group_actions c4_armed := by
  decide

/-- C4 (amended): `group_actions` always nulls the stored timer handle
but never cancels the scheduled timeout — the set of live scheduled
callbacks is unchanged, so a previously armed callback can still fire;
in particular with no timer armed the timer state is untouched. -/
theorem C4_group_actions_timer (s : HState) :
    (group_actions s).autogroup = none ∧
    (group_actions s).scheduled = s.scheduled := by
  by_cases h : s.action_lock <;> simp [group_actions, h]

/-- C5: every `push_action` with the lock clear appends the new action to
the pending buffer and unconditionally clears the undone-groups stack, so
an immediately following `redo` performs no registry invocation and
throws nothing. -/
theorem C5_push_discards_redo (map : CmdMap) (s : HState) (fn : String)
    (fp : List Int) (bn : String) (bp : List Int) (d : Option Nat)
    (h : s.action_lock = false) :
    (push_action s fn fp bn bp d).actions
      = jsPush s.actions { forward := { name := fn, parameters := fp },
                           backward := { name := bn, parameters := bp } } ∧
    (push_action s fn fp bn bp d).undone = [] ∧
    (redo map (push_action s fn fp bn bp d)).2.1 = [] ∧
    (redo map (push_action s fn fp bn bp d)).2.2 = none := by
  have key : (push_action s fn fp bn bp d).actions
      = jsPush s.actions { forward := { name := fn, parameters := fp },
                           backward := { name := bn, parameters := bp } } ∧
      (push_action s fn fp bn bp d).undone = [] := by
    rcases d with _ | dv
    · simp [push_action, h]
    · rcases hag : s.autogroup with _ | h0 <;> simp [push_action, h, hag]
  refine ⟨key.1, key.2, ?_, ?_⟩ <;>
    rw [redo_eq_none map _ (by rw [key.2]; rfl)]

/-- C5 witness: at the post-undo state with a non-empty undone stack,
pushing a new action forecloses redo. -/
theorem C5_witness :
    (undo mapOK c2_state).1.action_lock = false ∧
    ((push_action (undo mapOK c2_state).1 "c" [3] "c0" [4] none).actions
        = jsPush (undo mapOK c2_state).1.actions
            { forward := { name := "c", parameters := [3] },
              backward := { name := "c0", parameters := [4] } } ∧
     (push_action (undo mapOK c2_state).1 "c" [3] "c0" [4] none).undone = [] ∧
     (redo mapOK (push_action (undo mapOK c2_state).1 "c" [3] "c0" [4] none)).2.1
        = [] ∧
     (redo mapOK (push_action (undo mapOK c2_state).1 "c" [3] "c0" [4] none)).2.2
        = none) :=
  ⟨by decide,
   C5_push_discards_redo mapOK (undo mapOK c2_state).1 "c" [3] "c0" [4] none
     (by decide)⟩

/-! ## Claims C6-C8 -/

/-- C6: if a registry invoke throws while `undo` or `redo` replays a
unit, the error escapes the call untranslated, the reentrancy lock is
clear afterwards, and the invoke calls made are exactly the successful
prefix of the unit's descriptors followed by the single failing call —
nothing is rolled back or retried. -/
theorem C6_replay_failure (map : CmdMap) (s : HState)
    (h : s.action_lock = false) :
    (undo map s).1.action_lock = false ∧
    (redo map s).1.action_lock = false ∧
    (∀ e, (undo map s).2.2 = some e →
      ∃ u s2 pre d,
        undo_select (undo_timer_step s) = some (u, s2) ∧
        (pre ++ [d]) <+: (u.map fun a => a.backward) ∧
        (∀ x ∈ pre, map x.name x.parameters = none) ∧
        map d.name d.parameters = some e ∧
        (undo map s).2.1 = (pre ++ [d]).map descInv) ∧
    (∀ e, (redo map s).2.2 = some e →
      ∃ g rest pre d,
        jsPop s.undone = some (g, rest) ∧
        (pre ++ [d]) <+: (g.map fun a => a.forward) ∧
        (∀ x ∈ pre, map x.name x.parameters = none) ∧
        map d.name d.parameters = some e ∧
        (redo map s).2.1 = (pre ++ [d]).map descInv) := by
  have hundo : (undo map s).1.action_lock = false ∧
      (∀ e, (undo map s).2.2 = some e →
        ∃ u s2 pre d,
          undo_select (undo_timer_step s) = some (u, s2) ∧
          (pre ++ [d]) <+: (u.map fun a => a.backward) ∧
          (∀ x ∈ pre, map x.name x.parameters = none) ∧
          map d.name d.parameters = some e ∧
          (undo map s).2.1 = (pre ++ [d]).map descInv) := by
    rcases hsel : undo_select (undo_timer_step s) with _ | ⟨u, s2⟩
    · rw [undo_eq_nosel map s hsel]
      refine ⟨by rw [undo_timer_step_lock]; exact h, ?_⟩
      intro e he; simp at he
    · have hl2 : s2.action_lock = false := by
        rw [undo_select_lock (undo_timer_step s) u s2 hsel, undo_timer_step_lock]
        exact h
      rcases hr : replayDescs map (u.map fun a => a.backward) with ⟨tr, _ | e0⟩
      · rw [undo_eq_ok map s u s2 hsel hl2 tr hr]
        exact ⟨rfl, by intro e he; simp at he⟩
      · rw [undo_eq_err map s u s2 hsel hl2 tr e0 hr]
        refine ⟨rfl, ?_⟩
        intro e he
        simp only [Option.some.injEq] at he
        subst he
        obtain ⟨pre, d, suf, hds, hpre, hfail, htr2⟩ :=
          replayDescs_err map (u.map fun a => a.backward) tr e0 hr
        exact ⟨u, s2, pre, d, rfl, ⟨suf, by simp [hds]⟩, hpre, hfail, htr2⟩
  have hredo : (redo map s).1.action_lock = false ∧
      (∀ e, (redo map s).2.2 = some e →
        ∃ g rest pre d,
          jsPop s.undone = some (g, rest) ∧
          (pre ++ [d]) <+: (g.map fun a => a.forward) ∧
          (∀ x ∈ pre, map x.name x.parameters = none) ∧
          map d.name d.parameters = some e ∧
          (redo map s).2.1 = (pre ++ [d]).map descInv) := by
    rcases hp : jsPop s.undone with _ | ⟨g, rest⟩
    · rw [redo_eq_none map s hp]
      exact ⟨h, by intro e he; simp at he⟩
    · rcases hr : replayDescs map (g.map fun a => a.forward) with ⟨tr, _ | e0⟩
      · rw [redo_eq_ok map s g rest hp h tr hr]
        exact ⟨rfl, by intro e he; simp at he⟩
      · rw [redo_eq_err map s g rest hp h tr e0 hr]
        refine ⟨rfl, ?_⟩
        intro e he
        simp only [Option.some.injEq] at he
        subst he
        obtain ⟨pre, d, suf, hds, hpre, hfail, htr2⟩ :=
          replayDescs_err map (g.map fun a => a.forward) tr e0 hr
        exact ⟨g, rest, pre, d, rfl, ⟨suf, by simp [hds]⟩, hpre, hfail, htr2⟩
  exact ⟨hundo.1, hredo.1, hundo.2, hredo.2⟩

/-- C6 witness: the statement at the two-action pending buffer whose
second backward invocation throws, under the throwing registry. -/
theorem C6_witness :
    c6_state.action_lock = false ∧
    ((undo mapBoom c6_state).1.action_lock = false ∧
     (redo mapBoom c6_state).1.action_lock = false ∧
     (∀ e, (undo mapBoom c6_state).2.2 = some e →
       ∃ u s2 pre d,
         undo_select (undo_timer_step c6_state) = some (u, s2) ∧
         (pre ++ [d]) <+: (u.map fun a => a.backward) ∧
         (∀ x ∈ pre, mapBoom x.name x.parameters = none) ∧
         mapBoom d.name d.parameters = some e ∧
         (undo mapBoom c6_state).2.1 = (pre ++ [d]).map descInv) ∧
     (∀ e, (redo mapBoom c6_state).2.2 = some e →
       ∃ g rest pre d,
         jsPop c6_state.undone = some (g, rest) ∧
         (pre ++ [d]) <+: (g.map fun a => a.forward) ∧
         (∀ x ∈ pre, mapBoom x.name x.parameters = none) ∧
         mapBoom d.name d.parameters = some e ∧
         (redo mapBoom c6_state).2.1 = (pre ++ [d]).map descInv)) :=
  ⟨rfl, C6_replay_failure mapBoom c6_state rfl⟩

/-- C7 counterexample: with a pending buffer `[c7_act]` whose backward
invocation throws, `undo` propagates the error and does NOT push the
selected unit onto the undone-groups stack, contrary to the claim. -/
theorem C7_counterexample :
    c7_state.actions = [c7_act] ∧
    (undo mapBoom c7_state).2.2 = some "fail" ∧
    (undo mapBoom c7_state).1.undone = [] ∧
    (undo mapBoom c7_state).1.undone ≠ [[c7_act]] := by
  decide

/-- C7 (amended): every `undo` that selects a unit pushes it onto the
undone-groups stack when the replay completes without throwing or is
skipped because the lock was already set; but when a replay invocation
throws, the error escapes before the push, so the unit is NOT pushed. -/
theorem C7_undo_undone_push (map : CmdMap) (s : HState)
    (u : List HistoricAction) (s2 : HState)
    (hsel : undo_select (undo_timer_step s) = some (u, s2)) :
    (s2.action_lock = true → (undo map s).1.undone = jsPush s2.undone u) ∧
    ((replayDescs map (u.map fun a => a.backward)).2 = none →
      s2.action_lock = false →
      (undo map s).1.undone = jsPush s2.undone u) ∧
    (∀ e, (replayDescs map (u.map fun a => a.backward)).2 = some e →
      s2.action_lock = false → (undo map s).1.undone = s2.undone) := by
  refine ⟨?_, ?_, ?_⟩
  · intro hl
    rw [undo_eq_locked map s u s2 hsel hl]
  · intro hok hl
    rcases hr : replayDescs map (u.map fun a => a.backward) with ⟨tr, err⟩
    rw [hr] at hok
    simp only at hok
    subst hok
    rw [undo_eq_ok map s u s2 hsel hl tr hr]
  · intro e herr hl
    rcases hr : replayDescs map (u.map fun a => a.backward) with ⟨tr, err⟩
    rw [hr] at herr
    simp only at herr
    subst herr
    rw [undo_eq_err map s u s2 hsel hl tr e hr]

/-- C7 witness: the amended statement at the one-action pending buffer
under the always-succeeding registry (the replay-success branch). -/
theorem C7_witness :
    undo_select (undo_timer_step c2_state) = some ([c2_act], c2_state) ∧
    ((c2_state.action_lock = true →
       (undo mapOK c2_state).1.undone = jsPush c2_state.undone [c2_act]) ∧
     ((replayDescs mapOK ([c2_act].map fun a => a.backward)).2 = none →
       c2_state.action_lock = false →
       (undo mapOK c2_state).1.undone = jsPush c2_state.undone [c2_act]) ∧
     (∀ e, (replayDescs mapOK ([c2_act].map fun a => a.backward)).2 = some e →
       c2_state.action_lock = false →
       (undo mapOK c2_state).1.undone = c2_state.undone)) :=
  ⟨by decide, C7_undo_undone_push mapOK c2_state [c2_act] c2_state (by decide)⟩

/-- C8: `group_actions` with the lock clear and an empty pending buffer
pushes an empty group; an `undo` that pops an empty top group performs
zero invocations, throws nothing, pushes the empty group onto the
undone stack, and leaves the deeper committed groups untouched (no
automatic retry in the same call). -/
theorem C8_empty_group (map : CmdMap) (s : HState)
    (gs : List (List HistoricAction))
    (hlock : s.action_lock = false) (hpend : s.actions = []) :
    (group_actions s).action_groups = jsPush s.action_groups [] ∧
    (s.autogroup = none → s.action_groups = jsPush gs [] →
      (undo map s).2.1 = [] ∧ (undo map s).2.2 = none ∧
      (undo map s).1.undone = jsPush s.undone [] ∧
      (undo map s).1.action_groups = gs) := by
  constructor
  · simp [group_actions, hlock, hpend]
  · intro htimer hgr
    have hsel : undo_select (undo_timer_step s)
        = some (([] : List HistoricAction), { s with action_groups := gs }) := by
      rw [undo_timer_none s htimer]
      have h0 := undo_select_group s hpend [] gs hgr
      simpa using h0
    have hl2 : ({ s with action_groups := gs } : HState).action_lock = false :=
      hlock
    have hr : replayDescs map
        (([] : List HistoricAction).map fun a => a.backward) = ([], none) := rfl
    rw [undo_eq_ok map s [] { s with action_groups := gs } hsel hl2 [] hr]
    exact ⟨rfl, rfl, rfl, rfl⟩

/-- C8 witness: the statement at the state holding exactly one committed
empty group (produced by `group_actions` on a fresh instance). -/
theorem C8_witness :
    c8_state.action_lock = false ∧ c8_state.actions = [] ∧
    ((group_actions c8_state).action_groups
        = jsPush c8_state.action_groups [] ∧
     (c8_state.autogroup = none →
      c8_state.action_groups = jsPush [] [] →
      (undo mapOK c8_state).2.1 = [] ∧ (undo mapOK c8_state).2.2 = none ∧
      (undo mapOK c8_state).1.undone = jsPush c8_state.undone [] ∧
      (undo mapOK c8_state).1.action_groups = [])) :=
  ⟨rfl, rfl, C8_empty_group mapOK c8_state [] rfl rfl⟩

/-! ## Claims C9-C10 -/

/-- C9: `undo` never clears or replaces the pending buffer: with a
non-empty pending buffer and no armed timer, the buffer after `undo`
equals the buffer before it, and a second consecutive `undo` makes
exactly the same registry invocations in the same order again. -/
theorem C9_undo_keeps_pending (map : CmdMap) (s : HState)
    (h1 : s.actions ≠ []) (h2 : s.autogroup = none) :
    (undo map s).1.actions = s.actions ∧
    (undo map (undo map s).1).2.1 = (undo map s).2.1 := by
  have hsel : undo_select (undo_timer_step s) = some (s.actions, s) := by
    rw [undo_timer_none s h2]; exact undo_select_pending s h1
  cases hl : s.action_lock with
  | true =>
    rw [undo_eq_locked map s s.actions s hsel hl]
    refine ⟨rfl, ?_⟩
    have hsel1 : undo_select
        (undo_timer_step { s with undone := jsPush s.undone s.actions })
        = some (s.actions, { s with undone := jsPush s.undone s.actions }) := by
      rw [undo_timer_none { s with undone := jsPush s.undone s.actions } h2]
      exact undo_select_pending _ h1
    rw [undo_eq_locked map _ s.actions _ hsel1 hl]
  | false =>
    rcases hr : replayDescs map (s.actions.map fun a => a.backward)
      with ⟨tr, _ | e0⟩
    · rw [undo_eq_ok map s s.actions s hsel hl tr hr]
      refine ⟨rfl, ?_⟩
      have hsel1 : undo_select (undo_timer_step
          { s with
              action_lock := false, undone := jsPush s.undone s.actions })
          = some (s.actions,
              { s with
                  action_lock := false,
                  undone := jsPush s.undone s.actions }) := by
        rw [undo_timer_none
          { s with
              action_lock := false, undone := jsPush s.undone s.actions } h2]
        exact undo_select_pending _ h1
      rw [undo_eq_ok map _ s.actions _ hsel1 rfl tr hr]
    · rw [undo_eq_err map s s.actions s hsel hl tr e0 hr]
      refine ⟨rfl, ?_⟩
      have hsel1 : undo_select (undo_timer_step { s with action_lock := false })
          = some (s.actions, { s with action_lock := false }) := by
        rw [undo_timer_none { s with action_lock := false } h2]
        exact undo_select_pending _ h1
      rw [undo_eq_err map _ s.actions _ hsel1 rfl tr e0 hr]

/-- C9 witness: the statement at the one-action pending buffer. -/
theorem C9_witness :
    c2_state.actions ≠ [] ∧ c2_state.autogroup = none ∧
    ((undo mapOK c2_state).1.actions = c2_state.actions ∧
     (undo mapOK (undo mapOK c2_state).1).2.1 = (undo mapOK c2_state).2.1) :=
  ⟨by decide, rfl, C9_undo_keeps_pending mapOK c2_state (by decide) rfl⟩

/-- C10: undo followed by redo is not the identity on the committed
stack: after `undo` pops a committed group `g` and `redo` re-commits it
(lock clear, no failures), the top of the committed stack is `g.reverse`,
and a second `undo` of that group invokes the backward descriptors in
`g`'s original forward-chronological order. -/
theorem C10_undo_redo_reversal (map : CmdMap) (s : HState)
    (g : List HistoricAction) (gs : List (List HistoricAction))
    (hlock : s.action_lock = false) (hpend : s.actions = [])
    (htimer : s.autogroup = none) (hgroups : s.action_groups = jsPush gs g)
    (hlen : 2 ≤ g.length) (hok : ∀ n p, map n p = none) :
    (redo map (undo map s).1).1.action_groups = jsPush gs g.reverse ∧
    (undo map (redo map (undo map s).1).1).2.1
      = g.map fun a => descInv a.backward := by
  have hsel : undo_select (undo_timer_step s)
      = some (g.reverse, { s with action_groups := gs }) := by
    rw [undo_timer_none s htimer]
    exact undo_select_group s hpend g gs hgroups
  have e1 : undo map s
      = ({ s with
            action_groups := gs, action_lock := false,
            undone := jsPush s.undone g.reverse },
         (g.reverse.map fun a => a.backward).map descInv, none) :=
    undo_eq_ok map s g.reverse { s with action_groups := gs } hsel hlock _
      (replayDescs_of_ok map hok _)
  have f1 : (undo map s).1
      = { s with
            action_groups := gs, action_lock := false,
            undone := jsPush s.undone g.reverse } := by
    rw [e1]
  have hp : jsPop
      ({ s with
          action_groups := gs, action_lock := false,
          undone := jsPush s.undone g.reverse } : HState).undone
      = some (g.reverse, s.undone) := jsPop_jsPush s.undone g.reverse
  have e2 : redo map
      { s with
          action_groups := gs, action_lock := false,
          undone := jsPush s.undone g.reverse }
      = ({ s with
            action_groups := jsPush gs g.reverse, action_lock := false,
            undone := s.undone },
         (g.reverse.map fun a => a.forward).map descInv, none) :=
    redo_eq_ok map _ g.reverse s.undone hp rfl _ (replayDescs_of_ok map hok _)
  have f2 : (redo map
      { s with
          action_groups := gs, action_lock := false,
          undone := jsPush s.undone g.reverse }).1
      = { s with
            action_groups := jsPush gs g.reverse, action_lock := false,
            undone := s.undone } := by
    rw [e2]
  have hsel2 : undo_select (undo_timer_step
      { s with
          action_groups := jsPush gs g.reverse, action_lock := false,
          undone := s.undone })
      = some (g.reverse.reverse,
          { s with
              action_groups := gs, action_lock := false,
              undone := s.undone }) := by
    rw [undo_timer_none
      { s with
          action_groups := jsPush gs g.reverse, action_lock := false,
          undone := s.undone } htimer]
    exact undo_select_group
      { s with
          action_groups := jsPush gs g.reverse, action_lock := false,
          undone := s.undone }
      hpend g.reverse gs rfl
  have e3 : undo map
      { s with
          action_groups := jsPush gs g.reverse, action_lock := false,
          undone := s.undone }
      = ({ s with
            action_groups := gs, action_lock := false,
            undone := jsPush s.undone g.reverse.reverse },
         (g.reverse.reverse.map fun a => a.backward).map descInv, none) :=
    undo_eq_ok map _ g.reverse.reverse
      { s with
          action_groups := gs, action_lock := false, undone := s.undone }
      hsel2 rfl _ (replayDescs_of_ok map hok _)
  constructor
  · rw [f1, f2]
  · rw [f1, f2, e3]
    simp [List.map_map, Function.comp, descInv]

/-- C10 witness: the statement at the concrete two-action group scenario
(push A, push B, `group_actions()`). -/
theorem C10_witness :
    scenarioState.action_lock = false ∧ scenarioState.actions = [] ∧
    scenarioState.autogroup = none ∧
    scenarioState.action_groups = jsPush [] [actA, actB] ∧
    2 ≤ ([actA, actB] : List HistoricAction).length ∧
    (∀ n p, mapOK n p = none) ∧
    ((redo mapOK (undo mapOK scenarioState).1).1.action_groups
        = jsPush [] ([actA, actB] : List HistoricAction).reverse ∧
     (undo mapOK (redo mapOK (undo mapOK scenarioState).1).1).2.1
        = [actA, actB].map fun a => descInv a.backward) :=
  ⟨by decide, by decide, by decide, by decide, by decide, fun _ _ => rfl,
   C10_undo_redo_reversal mapOK scenarioState [actA, actB] []
     (by decide) (by decide) (by decide) (by decide) (by decide)
     (fun _ _ => rfl)⟩
